import Mathlib

/-!
Verification of the Drill Score Normalization & Ranking Engine of the
combine-stats-tracker repository.

The what-if composite scoring and ranking path is embedded from
`frontend/src/CoachDashboard.jsx` (`calculateCustomCompositeScore`,
`filteredAndSortedPlayers`, `handleWeightChange`, CSV rank assignment).
Numbers are modelled as rationals; JavaScript objects keyed by drill type
become total functions into `Option`/`ℚ`.  The backend Normalizer and the
official Ranker are not part of the frontend sources; they are modelled
from the specification and marked as such.
-/

namespace CombineStats

/-- The five drill kinds of the `DRILL_TYPES` registry in `CoachDashboard.jsx`. -/
inductive DrillType where
  | fortyMDash
  | verticalJump
  | catching
  | throwing
  | agility
deriving DecidableEq, Repr

open DrillType

/-- `Object.values(DRILL_TYPES)` / iteration order of the `for … in DRILL_TYPES` loop:
`40m_dash, vertical_jump, catching, throwing, agility`. -/
def DRILL_TYPES : List DrillType := [fortyMDash, verticalJump, catching, throwing, agility]

/-- A weight profile: the JS object `{drill_type: weightPercentage}`;
a missing key reads as `0` via `customWeights[drillType] || 0`, so a total
function into `ℚ` is the faithful model. -/
abbrev WeightProfile := DrillType → ℚ

/-- `OFFICIAL_DEFAULT_WEIGHTS` from `CoachDashboard.jsx`. -/
def OFFICIAL_DEFAULT_WEIGHTS : WeightProfile
  | fortyMDash => 30
  | verticalJump => 20
  | agility => 20
  | throwing => 15
  | catching => 15

/-- One element of a player's drill-result list as fetched from
`/players/{id}/results/`: `drill_type`, raw score, and the cached
`normalized_score` (null modelled as `none`). -/
structure DrillResult where
  drill_type : DrillType
  raw_score : ℚ
  normalized_score : Option ℚ
deriving DecidableEq, Repr

/-- `Math.round(x * 100) / 100` — rounding to two decimal places;
JS `Math.round` is `⌊x + 1/2⌋`. -/
def round2 (q : ℚ) : ℚ := (⌊q * 100 + 1 / 2⌋ : ℚ) / 100

/-- One step of the `playerResults.forEach` loop building
`bestNormalizedScores` in `calculateCustomCompositeScore`:
null scores are skipped, and the current best is read back through
`bestNormalizedScores[result.drill_type] || -1` (so a stored `0` reads
as `-1`, as the source comment notes). -/
def bestStep (acc : DrillType → Option ℚ) (r : DrillResult) : DrillType → Option ℚ :=
  match r.normalized_score with
  | none => acc
  | some s =>
    let currentBest : ℚ :=
      match acc r.drill_type with
      | none => -1
      | some b => if b = 0 then -1 else b
    if currentBest < s then
      fun d => if d = r.drill_type then some s else acc d
    else acc

/-- The `bestNormalizedScores` map of `calculateCustomCompositeScore`. -/
def bestNormalizedScores (results : List DrillResult) : DrillType → Option ℚ :=
  results.foldl bestStep (fun _ => none)

/-- `calculateCustomCompositeScore` from `CoachDashboard.jsx`: iterate over
every drill of the registry; an unattempted drill contributes normalized
score 0; weights are percentages divided by 100; if the applied weight is
0 the function returns 0.0; otherwise the weighted average rounded to two
decimals. -/
def calculateCustomCompositeScore
    (playerResults : List DrillResult) (customWeights : WeightProfile) : ℚ :=
  let best := bestNormalizedScores playerResults
  let totals :=
    DRILL_TYPES.foldl
      (fun (acc : ℚ × ℚ) drillType =>
        let normScore := (best drillType).getD 0
        let weight := customWeights drillType / 100
        (acc.1 + normScore * weight, acc.2 + weight))
      (0, 0)
  if totals.2 = 0 then 0
  else round2 (totals.1 / totals.2)

/-- A player record as fetched from `/players/`; `composite_score` is the
backend's official composite. -/
structure Player where
  id : ℕ
  age_group : String
  composite_score : ℚ
deriving DecidableEq, Repr

/-- A row of `filteredAndSortedPlayers`: the player spread together with the
custom and official composite scores. -/
structure ScoredPlayer where
  player : Player
  customCompositeScore : ℚ
  officialCompositeScore : ℚ
deriving DecidableEq, Repr

/-- Steps 1 and 2 of the `filteredAndSortedPlayers` memo of
`CoachDashboard.jsx`: filter by age group (`none` models the `'All'`
selection) and attach the custom composite score.  The sort is split off
below.  JS `Array.sort` is stable, and the comparator `(a, b) =>
b.customCompositeScore - a.customCompositeScore` keeps `a` before `b`
exactly when `b.customCompositeScore ≤ a.customCompositeScore`, so the
faithful model of the sort is a stable merge sort with that relation. -/
def scoredPlayers
    (players : List Player) (drillResults : ℕ → List DrillResult)
    (customWeights : WeightProfile) (selectedAgeGroup : Option String) :
    List ScoredPlayer :=
  let filteredPlayers := players.filter fun p =>
    match selectedAgeGroup with
    | none => true
    | some g => p.age_group = g
  filteredPlayers.map fun p =>
    { player := p
      customCompositeScore := calculateCustomCompositeScore (drillResults p.id) customWeights
      officialCompositeScore := p.composite_score }

/-- Step 3 of the memo: `playersWithScores.sort((a, b) =>
b.customCompositeScore - a.customCompositeScore)`. -/
def filteredAndSortedPlayers
    (players : List Player) (drillResults : ℕ → List DrillResult)
    (customWeights : WeightProfile) (selectedAgeGroup : Option String) :
    List ScoredPlayer :=
  (scoredPlayers players drillResults customWeights selectedAgeGroup).mergeSort fun a b =>
    decide (b.customCompositeScore ≤ a.customCompositeScore)

/-- Rank assignment of the dashboard (table rows and CSV export): the row at
0-based position `index` gets rank `index + 1`. -/
def rankEntries (l : List ScoredPlayer) : List (ℕ × ScoredPlayer) :=
  l.enum.map fun ip => (ip.1 + 1, ip.2)

/-- `handleWeightChange` from `CoachDashboard.jsx`:
`Math.max(0, Math.min(100, Number(value)))`, then the profile is updated at
the one key. -/
def handleWeightChange (w : WeightProfile) (drillType : DrillType) (value : ℚ) :
    WeightProfile :=
  fun d => if d = drillType then max 0 (min 100 value) else w d

/-- Arithmetic core of the composite score: the `/100` percentage scaling
cancels out of the weighted average, and the zero test on the scaled
denominator is the zero test on the weight sum. -/
theorem weighted_avg_unscale (n1 n2 n3 n4 n5 w1 w2 w3 w4 w5 : ℚ) :
    (if 0 + w1 / 100 + w2 / 100 + w3 / 100 + w4 / 100 + w5 / 100 = 0 then (0 : ℚ)
     else round2 ((0 + n1 * (w1 / 100) + n2 * (w2 / 100) + n3 * (w3 / 100) +
         n4 * (w4 / 100) + n5 * (w5 / 100)) /
       (0 + w1 / 100 + w2 / 100 + w3 / 100 + w4 / 100 + w5 / 100)))
    = if w1 + (w2 + (w3 + (w4 + (w5 + 0)))) = 0 then 0
      else round2 ((w1 * n1 + (w2 * n2 + (w3 * n3 + (w4 * n4 + (w5 * n5 + 0))))) /
        (w1 + (w2 + (w3 + (w4 + (w5 + 0)))))) := by
  have hD : 0 + w1 / 100 + w2 / 100 + w3 / 100 + w4 / 100 + w5 / 100 =
      (w1 + (w2 + (w3 + (w4 + (w5 + 0))))) / 100 := by ring
  by_cases hS : w1 + (w2 + (w3 + (w4 + (w5 + 0)))) = 0
  · rw [if_pos (by rw [hD, hS]; norm_num), if_pos hS]
  · rw [if_neg (by rw [hD]; exact div_ne_zero hS (by norm_num)), if_neg hS]
    congr 1
    field_simp
    ring

/-- Closed form of `calculateCustomCompositeScore`: the percentage scaling
cancels, leaving the weighted average of best normalized scores over the
unscaled weight sum, with result `0` when the weight sum is zero. -/
theorem calc_eq_closed (results : List DrillResult) (w : WeightProfile) :
    calculateCustomCompositeScore results w =
      if (DRILL_TYPES.map w).sum = 0 then 0
      else
        round2 ((DRILL_TYPES.map fun d =>
            w d * ((bestNormalizedScores results d).getD 0)).sum /
          (DRILL_TYPES.map w).sum) := by
  simp only [calculateCustomCompositeScore, DRILL_TYPES, List.foldl, List.map,
    List.sum_cons, List.sum_nil]
  exact weighted_avg_unscale _ _ _ _ _ _ _ _ _ _

/-- The weight profile of the spec's worked example: `drillA` (the 40 m dash)
at 30, `drillB` (the vertical jump) at 70, all other drills at 0. -/
def exampleProfile : WeightProfile
  | fortyMDash => 30
  | verticalJump => 70
  | _ => 0

/-- The result list of the spec's worked example: only `drillA` attempted,
normalized score 80. -/
def exampleResults : List DrillResult := [⟨fortyMDash, 5, some 80⟩]

end CombineStats

namespace CombineStats

open DrillType

/-- C1: for a weight profile with nonnegative weights, at least one of them
non-zero, the composite score is the weighted sum of the player's best
normalized scores over every drill of the registry (an unattempted drill
contributing 0), divided by the sum of all weights, rounded to two decimal
places. -/
theorem claim_C1 (results : List DrillResult) (w : WeightProfile)
    (hnn : ∀ d, 0 ≤ w d) (hex : ∃ d ∈ DRILL_TYPES, w d ≠ 0) :
    calculateCustomCompositeScore results w =
      round2 ((DRILL_TYPES.map fun d =>
          w d * ((bestNormalizedScores results d).getD 0)).sum /
        (DRILL_TYPES.map w).sum) := by
  rw [calc_eq_closed]
  refine if_neg ?_
  obtain ⟨d, hd, hne⟩ := hex
  have h1 := hnn fortyMDash
  have h2 := hnn verticalJump
  have h3 := hnn catching
  have h4 := hnn throwing
  have h5 := hnn agility
  simp only [DRILL_TYPES, List.map, List.sum_cons, List.sum_nil]
  intro h0
  simp only [DRILL_TYPES, List.mem_cons, List.not_mem_nil, or_false] at hd
  rcases hd with rfl | rfl | rfl | rfl | rfl <;> exact hne (by linarith)

/-- Witness for C1, the spec's worked example: weights
`{40m_dash: 30, vertical_jump: 70}`, only the dash attempted with
normalized score 80, give composite `(30*80 + 70*0) / 100 = 24.00`. -/
theorem claim_C1_witness :
    (∀ d, 0 ≤ exampleProfile d) ∧ (∃ d ∈ DRILL_TYPES, exampleProfile d ≠ 0) ∧
      calculateCustomCompositeScore exampleResults exampleProfile = 24 := by
  have hnn : ∀ d, 0 ≤ exampleProfile d := by
    intro d
    cases d <;> norm_num [exampleProfile]
  have hex : ∃ d ∈ DRILL_TYPES, exampleProfile d ≠ 0 :=
    ⟨fortyMDash, by simp [DRILL_TYPES], by norm_num [exampleProfile]⟩
  refine ⟨hnn, hex, ?_⟩
  rw [claim_C1 exampleResults exampleProfile hnn hex]
  simp +decide [DRILL_TYPES, exampleProfile, exampleResults, bestNormalizedScores, bestStep,
    round2]
  rw [show ⌊(30 * 80 / (30 + 70) * 100 + 2⁻¹ : ℚ)⌋ = 2400 from by
    rw [Int.floor_eq_iff]
    norm_num]
  norm_num

/-- Counterexample to C2: with every weight zero, the code does not fail —
`calculateCustomCompositeScore` is total and returns the plain value `0`
(`if (totalWeightApplied === 0) return 0.0`). -/
theorem claim_C2_counterexample :
    calculateCustomCompositeScore exampleResults (fun _ => 0) = 0 := by
  rw [calc_eq_closed]
  simp [DRILL_TYPES]

/-- C2 as amended: when every weight in the profile is zero, the composite
computation silently returns `0.0`; no error is raised. -/
theorem claim_C2_amended (results : List DrillResult) (w : WeightProfile)
    (hz : ∀ d, w d = 0) : calculateCustomCompositeScore results w = 0 := by
  rw [calc_eq_closed]
  simp [DRILL_TYPES, hz]

/-- Witness for the amended C2 at the all-zero profile. -/
theorem claim_C2_witness :
    calculateCustomCompositeScore [] (fun _ => 0) = 0 :=
  claim_C2_amended [] (fun _ => 0) (fun _ => rfl)

/-- C6: scaling every weight of the profile by the same positive constant
leaves the composite score unchanged. -/
theorem claim_C6 (results : List DrillResult) (w : WeightProfile) (k : ℚ)
    (hk : 0 < k) :
    calculateCustomCompositeScore results (fun d => k * w d) =
      calculateCustomCompositeScore results w := by
  rw [calc_eq_closed, calc_eq_closed]
  have hk0 : k ≠ 0 := ne_of_gt hk
  simp only [DRILL_TYPES, List.map, List.sum_cons, List.sum_nil]
  by_cases hS : w fortyMDash + (w verticalJump + (w catching + (w throwing + (w agility + 0)))) = 0
  · rw [if_pos hS, if_pos (by rw [show k * w fortyMDash + (k * w verticalJump + (k * w catching +
      (k * w throwing + (k * w agility + 0)))) = k * (w fortyMDash + (w verticalJump +
      (w catching + (w throwing + (w agility + 0))))) from by ring, hS, mul_zero])]
  · rw [if_neg hS, if_neg (by
      rw [show k * w fortyMDash + (k * w verticalJump + (k * w catching +
        (k * w throwing + (k * w agility + 0)))) = k * (w fortyMDash + (w verticalJump +
        (w catching + (w throwing + (w agility + 0))))) from by ring]
      exact mul_ne_zero hk0 hS)]
    congr 1
    rw [show k * w fortyMDash * (bestNormalizedScores results fortyMDash).getD 0 +
        (k * w verticalJump * (bestNormalizedScores results verticalJump).getD 0 +
        (k * w catching * (bestNormalizedScores results catching).getD 0 +
        (k * w throwing * (bestNormalizedScores results throwing).getD 0 +
        (k * w agility * (bestNormalizedScores results agility).getD 0 + 0)))) =
        k * (w fortyMDash * (bestNormalizedScores results fortyMDash).getD 0 +
        (w verticalJump * (bestNormalizedScores results verticalJump).getD 0 +
        (w catching * (bestNormalizedScores results catching).getD 0 +
        (w throwing * (bestNormalizedScores results throwing).getD 0 +
        (w agility * (bestNormalizedScores results agility).getD 0 + 0))))) from by ring,
      show k * w fortyMDash + (k * w verticalJump + (k * w catching +
        (k * w throwing + (k * w agility + 0)))) = k * (w fortyMDash + (w verticalJump +
        (w catching + (w throwing + (w agility + 0))))) from by ring,
      mul_div_mul_left _ _ hk0]

/-- Witness for C6: doubling the weights of the worked example leaves the
composite at its value. -/
theorem claim_C6_witness :
    (0 : ℚ) < 2 ∧
      calculateCustomCompositeScore exampleResults (fun d => 2 * exampleProfile d) =
        calculateCustomCompositeScore exampleResults exampleProfile :=
  ⟨by norm_num, claim_C6 exampleResults exampleProfile 2 (by norm_num)⟩

end CombineStats

namespace CombineStats

open DrillType

/-- The error taxonomy of the core (spec §7); the frontend sources raise none
of these, they belong to the backend engine. -/
inductive CoreError where
  | UnknownDrillKind
  | CohortBoundsStale
  | ZeroWeightProfile
deriving DecidableEq, Repr

/-- Measurement direction of a drill (spec §3, DrillSpec). -/
inductive Direction where
  | lowerIsBetter
  | higherIsBetter
deriving DecidableEq, Repr

/-- Cohort bounds (spec §4.2): either the empty-cohort sentinel or the
`(min, max)` of the raw scores on record. -/
inductive Bounds where
  | empty
  | interval (mn mx : ℚ)
deriving DecidableEq, Repr

/-- Modelled from the spec: the backend Normalizer (spec §4.3) is not part of
the frontend sources under `frontend/`; this definition follows the spec's
words. Empty cohort: neutral 50. `min == max`: 100 for every player. Otherwise
a raw score outside the bounds fails with `CohortBoundsStale`; in-range scores
map through the direction-aware linear scaling, clamped to `[0, 100]` to
absorb edge error. -/
def normalize (raw : ℚ) (dir : Direction) (b : Bounds) : Except CoreError ℚ :=
  match b with
  | .empty => .ok 50
  | .interval mn mx =>
    if mn = mx then .ok 100
    else if raw < mn ∨ mx < raw then .error .CohortBoundsStale
    else
      let v : ℚ :=
        match dir with
        | .higherIsBetter => 100 * (raw - mn) / (mx - mn)
        | .lowerIsBetter => 100 * (mx - raw) / (mx - mn)
      .ok (max 0 (min 100 v))

/-- C3: for cohort bounds with `min < max` and a raw score within them,
normalization is the direction-aware linear scaling:
`100 * (raw - min) / (max - min)` for higher-is-better and
`100 * (max - raw) / (max - min)` for lower-is-better. -/
theorem claim_C3 (mn mx raw : ℚ) (hlt : mn < mx) (hlo : mn ≤ raw) (hhi : raw ≤ mx) :
    normalize raw .higherIsBetter (.interval mn mx) =
        .ok (100 * (raw - mn) / (mx - mn)) ∧
      normalize raw .lowerIsBetter (.interval mn mx) =
        .ok (100 * (mx - raw) / (mx - mn)) := by
  have hne : mn ≠ mx := ne_of_lt hlt
  have hd : (0 : ℚ) < mx - mn := by linarith
  have hrange : ¬(raw < mn ∨ mx < raw) := by
    push_neg
    exact ⟨hlo, hhi⟩
  constructor
  · have hv0 : 0 ≤ 100 * (raw - mn) / (mx - mn) :=
      div_nonneg (mul_nonneg (by norm_num) (by linarith)) (le_of_lt hd)
    have hv1 : 100 * (raw - mn) / (mx - mn) ≤ 100 := by
      rw [mul_div_assoc]
      nlinarith [(div_le_one hd).mpr (by linarith : raw - mn ≤ mx - mn)]
    simp only [normalize, if_neg hne, if_neg hrange]
    rw [min_eq_right hv1, max_eq_right hv0]
  · have hv0 : 0 ≤ 100 * (mx - raw) / (mx - mn) :=
      div_nonneg (mul_nonneg (by norm_num) (by linarith)) (le_of_lt hd)
    have hv1 : 100 * (mx - raw) / (mx - mn) ≤ 100 := by
      rw [mul_div_assoc]
      nlinarith [(div_le_one hd).mpr (by linarith : mx - raw ≤ mx - mn)]
    simp only [normalize, if_neg hne, if_neg hrange]
    rw [min_eq_right hv1, max_eq_right hv0]

/-- Witness for C3, the spec's example cohort: lower-is-better raw times
`{5, 6, 7}` normalize to `{100, 50, 0}`. -/
theorem claim_C3_witness :
    (5 : ℚ) < 7 ∧
      normalize 5 .lowerIsBetter (.interval 5 7) = .ok 100 ∧
      normalize 6 .lowerIsBetter (.interval 5 7) = .ok 50 ∧
      normalize 7 .lowerIsBetter (.interval 5 7) = .ok 0 := by
  refine ⟨by norm_num, ?_, ?_, ?_⟩
  · rw [(claim_C3 5 7 5 (by norm_num) (by norm_num) (by norm_num)).2]
    norm_num
  · rw [(claim_C3 5 7 6 (by norm_num) (by norm_num) (by norm_num)).2]
    norm_num
  · rw [(claim_C3 5 7 7 (by norm_num) (by norm_num) (by norm_num)).2]
    norm_num

/-- C5: normalization is total on degenerate cohorts — the empty cohort gives
the neutral 50 for every raw score and direction, and a zero-width cohort
(`min == max`) gives 100, with no division by zero. -/
theorem claim_C5 :
    (∀ (raw : ℚ) (dir : Direction), normalize raw dir .empty = .ok 50) ∧
      ∀ (raw m : ℚ) (dir : Direction), normalize raw dir (.interval m m) = .ok 100 := by
  constructor
  · intro raw dir
    rfl
  · intro raw m dir
    simp [normalize]

end CombineStats

namespace CombineStats

open DrillType

/-- The (non-null) normalized scores a result list records for one drill, in
list order. -/
def scoresFor (results : List DrillResult) (d : DrillType) : List ℚ :=
  results.filterMap fun r => if r.drill_type = d then r.normalized_score else none

/-- Running maximum over a list starting from an optional seed. -/
def optFoldMax : Option ℚ → List ℚ → Option ℚ
  | o, [] => o
  | none, s :: l => optFoldMax (some s) l
  | some b, s :: l => optFoldMax (some (max b s)) l

theorem optFoldMax_some (b : ℚ) (l : List ℚ) :
    optFoldMax (some b) l = some (l.foldl max b) := by
  induction l generalizing b with
  | nil => rfl
  | cons s l ih => simp [optFoldMax, List.foldl, ih]

theorem optFoldMax_none_eq_max? (l : List ℚ) : optFoldMax none l = l.max? := by
  cases l with
  | nil => rfl
  | cons a l => rw [show optFoldMax none (a :: l) = optFoldMax (some a) l from rfl,
      optFoldMax_some, List.max?_cons']

theorem bestStep_nonneg (acc : DrillType → Option ℚ) (r : DrillResult)
    (hacc : ∀ d b, acc d = some b → 0 ≤ b)
    (hr : ∀ s, r.normalized_score = some s → 0 ≤ s) :
    ∀ d b, bestStep acc r d = some b → 0 ≤ b := by
  intro d b h
  unfold bestStep at h
  cases hn : r.normalized_score with
  | none =>
    rw [hn] at h
    exact hacc d b h
  | some s =>
    have hs : 0 ≤ s := hr s hn
    rw [hn] at h
    simp only at h
    split at h
    · by_cases hdt : d = r.drill_type
      · simp only [if_pos hdt] at h
        cases h
        exact hs
      · simp only [if_neg hdt] at h
        exact hacc d b h
    · exact hacc d b h

theorem bestFold_eq (results : List DrillResult) :
    ∀ (acc : DrillType → Option ℚ),
      (∀ d b, acc d = some b → 0 ≤ b) →
      (∀ r ∈ results, ∀ s, r.normalized_score = some s → 0 ≤ s) →
      ∀ d, results.foldl bestStep acc d = optFoldMax (acc d) (scoresFor results d) := by
  induction results with
  | nil =>
    intro acc hacc h d
    simp [scoresFor, optFoldMax]
  | cons r rest ih =>
    intro acc hacc h d
    have hr : ∀ s, r.normalized_score = some s → 0 ≤ s := h r (List.mem_cons_self r rest)
    have hrest : ∀ r' ∈ rest, ∀ s, r'.normalized_score = some s → 0 ≤ s :=
      fun r' hm => h r' (List.mem_cons_of_mem r hm)
    rw [List.foldl_cons, ih (bestStep acc r) (bestStep_nonneg acc r hacc hr) hrest d]
    cases hn : r.normalized_score with
    | none =>
      have h1 : bestStep acc r = acc := by
        unfold bestStep
        rw [hn]
      have h2 : scoresFor (r :: rest) d = scoresFor rest d := by
        simp [scoresFor, List.filterMap_cons, hn]
      rw [h1, h2]
    | some s =>
      have hs : 0 ≤ s := hr s hn
      by_cases hdt : r.drill_type = d
      · subst hdt
        have h2 : scoresFor (r :: rest) r.drill_type = s :: scoresFor rest r.drill_type := by
          simp [scoresFor, List.filterMap_cons, hn]
        rw [h2]
        have hrhs : optFoldMax (acc r.drill_type) (s :: scoresFor rest r.drill_type)
            = optFoldMax (match acc r.drill_type with
                | none => some s
                | some b => some (max b s)) (scoresFor rest r.drill_type) := by
          cases acc r.drill_type <;> rfl
        rw [hrhs]
        congr 1
        cases ha : acc r.drill_type with
        | none =>
          unfold bestStep
          rw [hn]
          simp only [ha]
          rw [if_pos (lt_of_lt_of_le (by norm_num : (-1 : ℚ) < 0) hs)]
          simp
        | some b =>
          have hb : 0 ≤ b := hacc _ b ha
          unfold bestStep
          rw [hn]
          simp only [ha]
          by_cases hb0 : b = 0
          · subst hb0
            rw [if_pos]
            · simp [max_eq_right hs]
            · simp only [if_pos rfl]
              exact lt_of_lt_of_le (by norm_num : (-1 : ℚ) < 0) hs
          · rw [if_neg hb0]
            by_cases hlt : b < s
            · rw [if_pos hlt]
              simp [max_eq_right (le_of_lt hlt)]
            · rw [if_neg hlt, ha, max_eq_left (not_lt.mp hlt)]
      · have h1 : (bestStep acc r) d = acc d := by
          unfold bestStep
          rw [hn]
          simp only
          split
          · show (if d = r.drill_type then some s else acc d) = acc d
            exact if_neg (fun hc => hdt hc.symm)
          · rfl
        have h2 : scoresFor (r :: rest) d = scoresFor rest d := by
          simp [scoresFor, List.filterMap_cons, hn, hdt]
        rw [h1, h2]

/-- Example results for C9: for the dash, a recorded normalized score of
exactly 0, a null normalized score, and a score of 50. -/
def c9Results : List DrillResult :=
  [⟨fortyMDash, 5, some 0⟩, ⟨fortyMDash, 6, none⟩, ⟨fortyMDash, 7, some 50⟩]

/-- C9: with several results for one drill (all recorded normalized scores
being nonnegative, as 0–100 normalized scores are), the composite computation
uses the maximum non-null normalized score for that drill; null scores are
ignored, and a drill whose only score is exactly 0 still counts as attempted. -/
theorem claim_C9 (results : List DrillResult)
    (h : ∀ r ∈ results, ∀ s, r.normalized_score = some s → 0 ≤ s) (d : DrillType) :
    bestNormalizedScores results d = (scoresFor results d).max? ∧
      (scoresFor results d ≠ [] → bestNormalizedScores results d ≠ none) := by
  have key : bestNormalizedScores results d = (scoresFor results d).max? := by
    rw [bestNormalizedScores, bestFold_eq results (fun _ => none) (fun d b hb => by cases hb) h d,
      optFoldMax_none_eq_max?]
  refine ⟨key, fun hne hcon => ?_⟩
  rw [key] at hcon
  exact hne (List.max?_eq_none_iff.mp hcon)

/-- Witness for C9: on `c9Results` the best dash score is the maximum, 50, of
the two non-null scores, and the drill counts as attempted. -/
theorem claim_C9_witness :
    (∀ r ∈ c9Results, ∀ s, r.normalized_score = some s → 0 ≤ s) ∧
      bestNormalizedScores c9Results fortyMDash = (scoresFor c9Results fortyMDash).max? ∧
      bestNormalizedScores c9Results fortyMDash = some 50 := by
  have h : ∀ r ∈ c9Results, ∀ s, r.normalized_score = some s → 0 ≤ s := by
    intro r hr s hs
    fin_cases hr <;> (simp_all <;> linarith)
  refine ⟨h, (claim_C9 c9Results h fortyMDash).1, ?_⟩
  rw [(claim_C9 c9Results h fortyMDash).1]
  simp +decide [scoresFor, c9Results, List.max?]

theorem handleWeightChange_inv (w : WeightProfile) (dt : DrillType) (v : ℚ)
    (hw : ∀ d, 0 ≤ w d ∧ w d ≤ 100) :
    ∀ d, 0 ≤ handleWeightChange w dt v d ∧ handleWeightChange w dt v d ≤ 100 := by
  intro d
  unfold handleWeightChange
  by_cases hd : d = dt
  · rw [if_pos hd]
    exact ⟨le_max_left 0 _, max_le (by norm_num) (min_le_left 100 v)⟩
  · rw [if_neg hd]
    exact hw d

theorem weightFold_inv (events : List (DrillType × ℚ)) :
    ∀ w : WeightProfile, (∀ d, 0 ≤ w d ∧ w d ≤ 100) →
      ∀ d, 0 ≤ (events.foldl (fun w e => handleWeightChange w e.1 e.2) w) d ∧
        (events.foldl (fun w e => handleWeightChange w e.1 e.2) w) d ≤ 100 := by
  induction events with
  | nil => exact fun w hw => hw
  | cons e es ih =>
    intro w hw
    rw [List.foldl_cons]
    exact ih _ (handleWeightChange_inv w e.1 e.2 hw)

/-- C10: starting from the official default weights, any sequence of
weight-change events through `handleWeightChange` leaves every weight of the
custom profile clamped within `[0, 100]`. -/
theorem claim_C10 (events : List (DrillType × ℚ)) (d : DrillType) :
    0 ≤ (events.foldl (fun w e => handleWeightChange w e.1 e.2)
        OFFICIAL_DEFAULT_WEIGHTS) d ∧
      (events.foldl (fun w e => handleWeightChange w e.1 e.2)
        OFFICIAL_DEFAULT_WEIGHTS) d ≤ 100 := by
  refine weightFold_inv events OFFICIAL_DEFAULT_WEIGHTS ?_ d
  intro d0
  cases d0 <;> norm_num [OFFICIAL_DEFAULT_WEIGHTS]

/-- A stable sort leaves the subsequence of elements sharing one sort key in
its original order: filtering the sorted list by a predicate on which the
comparison always holds gives the filtered input back unchanged. -/
theorem mergeSort_filter_stable {α : Type} (le : α → α → Bool)
    (htrans : ∀ a b c, le a b → le b c → le a c)
    (htotal : ∀ a b, le a b || le b a)
    (l : List α) (p : α → Bool) (hp : ∀ a b, p a → p b → le a b) :
    (l.mergeSort le).filter p = l.filter p := by
  have hpair : (l.filter p).Pairwise (fun a b => le a b) := by
    refine List.pairwise_of_forall_mem_list ?_
    intro a ha b hb
    exact hp a b (List.of_mem_filter ha) (List.of_mem_filter hb)
  have hsub : List.Sublist (l.filter p) (l.mergeSort le) :=
    List.sublist_mergeSort htrans htotal hpair (List.filter_sublist l)
  have hself : (l.filter p).filter p = l.filter p :=
    List.filter_eq_self.mpr fun a ha => List.of_mem_filter ha
  have hsub2 : List.Sublist (l.filter p) ((l.mergeSort le).filter p) := by
    have := hsub.filter p
    rwa [hself] at this
  have hperm : List.Perm ((l.mergeSort le).filter p) (l.filter p) :=
    (l.mergeSort_perm le).filter p
  exact (hsub2.eq_of_length hperm.length_eq.symm).symm

/-- The dashboard's rank column is the position: ranks are `1, 2, …, n`. -/
theorem rankEntries_map_fst (l : List ScoredPlayer) :
    (rankEntries l).map Prod.fst = List.range' 1 l.length := by
  rw [rankEntries, List.map_map,
    show (Prod.fst ∘ fun ip : ℕ × ScoredPlayer => (ip.1 + 1, ip.2)) =
      ((fun x => x + 1) ∘ Prod.fst) from rfl,
    ← List.map_map, List.enum_map_fst, List.range'_eq_map_range]
  refine List.map_congr_left ?_
  intro a _
  omega

/-- The comparator of the custom-ranking sort. -/
def scoreLe (a b : ScoredPlayer) : Bool :=
  decide (b.customCompositeScore ≤ a.customCompositeScore)

theorem scoreLe_trans (a b c : ScoredPlayer) :
    scoreLe a b → scoreLe b c → scoreLe a c := by
  simp only [scoreLe, decide_eq_true_eq]
  exact fun h1 h2 => le_trans h2 h1

theorem scoreLe_total (a b : ScoredPlayer) : scoreLe a b || scoreLe b a := by
  simp only [scoreLe, Bool.or_eq_true, decide_eq_true_eq]
  exact le_total _ _

/-- Counterexample to C4: two players with equal composite scores (no drill
results, so both score 0) are returned in input order, not player-id
ascending — the ranking depends on insertion order. -/
theorem claim_C4_counterexample :
    (filteredAndSortedPlayers [⟨2, "10U", 0⟩, ⟨1, "10U", 0⟩] (fun _ => [])
        OFFICIAL_DEFAULT_WEIGHTS none).map (fun s => s.player.id) = [2, 1] ∧
      (filteredAndSortedPlayers [⟨1, "10U", 0⟩, ⟨2, "10U", 0⟩] (fun _ => [])
        OFFICIAL_DEFAULT_WEIGHTS none).map (fun s => s.player.id) = [1, 2] ∧
      (filteredAndSortedPlayers [⟨2, "10U", 0⟩, ⟨1, "10U", 0⟩] (fun _ => [])
        OFFICIAL_DEFAULT_WEIGHTS none).map (fun s => s.customCompositeScore) = [0, 0] := by
  refine ⟨?_, ?_, ?_⟩ <;>
    (simp +decide [filteredAndSortedPlayers, scoredPlayers, calculateCustomCompositeScore,
      bestNormalizedScores, bestStep, DRILL_TYPES, round2, OFFICIAL_DEFAULT_WEIGHTS,
      List.mergeSort, List.merge] <;> norm_num)

/-- C4 as amended: the ranking is sorted descending by composite score and is
a permutation of the scored entries; entries with equal composite scores keep
their input order (stable sort), rather than being reordered by player id;
ranks are the 1-based positions `1, 2, …, n`, sequential and contiguous with
no shared rank on ties. -/
theorem claim_C4_amended (players : List Player) (drillResults : ℕ → List DrillResult)
    (w : WeightProfile) (sel : Option String) :
    ((filteredAndSortedPlayers players drillResults w sel).Pairwise
        fun a b => b.customCompositeScore ≤ a.customCompositeScore) ∧
      List.Perm (filteredAndSortedPlayers players drillResults w sel)
        (scoredPlayers players drillResults w sel) ∧
      (∀ c : ℚ, (filteredAndSortedPlayers players drillResults w sel).filter
          (fun s => decide (s.customCompositeScore = c)) =
        (scoredPlayers players drillResults w sel).filter
          (fun s => decide (s.customCompositeScore = c))) ∧
      (rankEntries (filteredAndSortedPlayers players drillResults w sel)).map Prod.fst =
        List.range' 1 (filteredAndSortedPlayers players drillResults w sel).length := by
  refine ⟨?_, ?_, ?_, rankEntries_map_fst _⟩
  · exact (List.sorted_mergeSort scoreLe_trans scoreLe_total
      (scoredPlayers players drillResults w sel)).imp of_decide_eq_true
  · exact List.mergeSort_perm _ _
  · intro c
    exact mergeSort_filter_stable scoreLe scoreLe_trans scoreLe_total _ _
      (fun a b ha hb => by
        simp only [decide_eq_true_eq] at ha hb
        simp [scoreLe, ha, hb])

/-- Component state of `CoachDashboard` feeding the what-if path: the fetched
players (carrying the official composite scores), the per-player drill-result
snapshot (carrying the persisted normalized scores), the custom weight
profile, and the age-group filter. -/
structure DashState where
  players : List Player
  drillResults : ℕ → List DrillResult
  customWeights : WeightProfile
  selectedAgeGroup : Option String

/-- The events the what-if UI dispatches: `handleWeightChange`,
`resetWeights`, and `handleAgeGroupChange`. -/
inductive DashEvent where
  | weightChange (d : DrillType) (v : ℚ)
  | resetWeights
  | ageGroupChange (g : Option String)

/-- The state transitions of the dashboard's event handlers: each handler
only calls its one `setState`. -/
def step (s : DashState) : DashEvent → DashState
  | .weightChange d v =>
    { s with customWeights := handleWeightChange s.customWeights d v }
  | .resetWeights => { s with customWeights := OFFICIAL_DEFAULT_WEIGHTS }
  | .ageGroupChange g => { s with selectedAgeGroup := g }

/-- The what-if ranking as a read-only view of the state. -/
def whatIfView (s : DashState) : List ScoredPlayer :=
  filteredAndSortedPlayers s.players s.drillResults s.customWeights s.selectedAgeGroup

/-- The fields of a drill result the what-if computation reads: the drill
type and the persisted normalized score (never the raw score). -/
def resProj (r : DrillResult) : DrillType × Option ℚ :=
  (r.drill_type, r.normalized_score)

theorem bestStep_proj (acc : DrillType → Option ℚ) (r r' : DrillResult)
    (h : resProj r = resProj r') : bestStep acc r = bestStep acc r' := by
  unfold resProj at h
  obtain ⟨h1, h2⟩ := Prod.mk.injEq .. |>.mp h
  unfold bestStep
  rw [h1, h2]

theorem bestFold_proj (l l' : List DrillResult) (h : l.map resProj = l'.map resProj) :
    ∀ acc, l.foldl bestStep acc = l'.foldl bestStep acc := by
  induction l generalizing l' with
  | nil =>
    cases l' with
    | nil => intro acc; rfl
    | cons r' t' => cases h
  | cons r t ih =>
    cases l' with
    | nil => cases h
    | cons r' t' =>
      intro acc
      rw [List.map_cons, List.map_cons] at h
      obtain ⟨h1, h2⟩ := List.cons.injEq .. |>.mp h
      rw [List.foldl_cons, List.foldl_cons, bestStep_proj acc r r' h1, ih t' h2]

theorem calc_proj (l l' : List DrillResult) (w : WeightProfile)
    (h : l.map resProj = l'.map resProj) :
    calculateCustomCompositeScore l w = calculateCustomCompositeScore l' w := by
  unfold calculateCustomCompositeScore bestNormalizedScores
  rw [bestFold_proj l l' h]

/-- C7: a what-if interaction neither writes the snapshot nor reads more of
it than the normalized scores.  Every dashboard event leaves the player list
(hence the official composite scores) and the drill-result snapshot (hence
the persisted normalized scores) unchanged, and the what-if ranking view is
identical on any two states whose snapshots agree on drill types and
normalized scores, raw data aside. -/
theorem claim_C7 (s s' : DashState) (e : DashEvent)
    (hp : s'.players = s.players)
    (hw : s'.customWeights = s.customWeights)
    (hg : s'.selectedAgeGroup = s.selectedAgeGroup)
    (hr : ∀ pid, (s'.drillResults pid).map resProj = (s.drillResults pid).map resProj) :
    (step s e).players = s.players ∧ (step s e).drillResults = s.drillResults ∧
      whatIfView s' = whatIfView s := by
  refine ⟨?_, ?_, ?_⟩
  · cases e <;> rfl
  · cases e <;> rfl
  · unfold whatIfView filteredAndSortedPlayers scoredPlayers
    rw [hp, hw, hg]
    congr 1
    refine List.map_congr_left ?_
    intro p _
    simp only [ScoredPlayer.mk.injEq]
    exact ⟨trivial, calc_proj _ _ _ (hr p.id), trivial⟩

/-- A concrete dashboard state for the C7 witness. -/
def c7State : DashState :=
  ⟨[⟨1, "10U", 24⟩], fun _ => [⟨fortyMDash, 5, some 80⟩], OFFICIAL_DEFAULT_WEIGHTS, none⟩

/-- The same state with a different raw score but the same normalized
snapshot. -/
def c7StateRaw : DashState :=
  ⟨[⟨1, "10U", 24⟩], fun _ => [⟨fortyMDash, 6, some 80⟩], OFFICIAL_DEFAULT_WEIGHTS, none⟩

/-- Witness for C7 at a concrete state, raw-score variant and weight-change
event. -/
theorem claim_C7_witness :
    (step c7State (.weightChange fortyMDash 50)).players = c7State.players ∧
      (step c7State (.weightChange fortyMDash 50)).drillResults = c7State.drillResults ∧
      whatIfView c7StateRaw = whatIfView c7State :=
  claim_C7 c7State c7StateRaw (.weightChange fortyMDash 50) rfl rfl rfl (fun _ => rfl)

/-- An entry of the spec Ranker's input: `{player_id, composite_score}`. -/
structure RankInput where
  player_id : ℕ
  composite_score : ℚ
deriving DecidableEq, Repr

/-- Modelled from the spec: the backend Composite Scorer (spec §4.4) is not
among the repository's frontend sources; per the spec it computes
`Σ(weight_d * normalized_d) / Σ(weight_d)` over the registry with missing
drills contributing 0, rounds to two decimals, and fails with
`ZeroWeightProfile` on a zero denominator. -/
def specScore (normalized : DrillType → Option ℚ) (w : WeightProfile) :
    Except CoreError ℚ :=
  if (DRILL_TYPES.map w).sum = 0 then .error .ZeroWeightProfile
  else .ok (round2 ((DRILL_TYPES.map fun d => w d * (normalized d).getD 0).sum /
    (DRILL_TYPES.map w).sum))

/-- Ordering of the spec Ranker: descending composite score, ties broken by
ascending player id. -/
def specLe (a b : RankInput) : Bool :=
  decide (b.composite_score < a.composite_score ∨
    (a.composite_score = b.composite_score ∧ a.player_id ≤ b.player_id))

/-- Modelled from the spec: the backend Ranker (spec §4.5) is not among the
repository's frontend sources; per the spec it sorts descending by composite
score, breaks ties by ascending player id, and assigns 1-based sequential
ranks. -/
def specRank (entries : List RankInput) : List (ℕ × RankInput) :=
  (entries.mergeSort specLe).enum.map fun ip => (ip.1 + 1, ip.2)

/-- Modelled from the spec: the official ranking path (spec §4.6) — the
official composite of each player from the snapshot's normalized scores under
the official profile, then the spec Ranker. -/
def officialRanking (players : List Player) (drillResults : ℕ → List DrillResult) :
    List (ℕ × RankInput) :=
  specRank (players.map fun p =>
    ⟨p.id, (specScore (bestNormalizedScores (drillResults p.id))
      OFFICIAL_DEFAULT_WEIGHTS).toOption.getD 0⟩)

theorem specLe_trans (a b c : RankInput) : specLe a b → specLe b c → specLe a c := by
  simp only [specLe, decide_eq_true_eq]
  rintro (h1 | ⟨h1e, h1i⟩) (h2 | ⟨h2e, h2i⟩)
  · exact Or.inl (lt_trans h2 h1)
  · exact Or.inl (h2e ▸ h1)
  · exact Or.inl (by rw [h1e]; exact h2)
  · exact Or.inr ⟨h1e.trans h2e, le_trans h1i h2i⟩

theorem specLe_total (a b : RankInput) : specLe a b || specLe b a := by
  simp only [specLe, Bool.or_eq_true, decide_eq_true_eq]
  rcases lt_trichotomy a.composite_score b.composite_score with h | h | h
  · exact Or.inr (Or.inl h)
  · rcases le_total a.player_id b.player_id with hi | hi
    · exact Or.inl (Or.inr ⟨h, hi⟩)
    · exact Or.inr (Or.inr ⟨h.symm, hi⟩)
  · exact Or.inl (Or.inl h)

/-- The id/score projection of a ranking entry, and the order both ranked
lists share. -/
def rankRel (x y : ℕ × ℚ) : Prop :=
  y.2 < x.2 ∨ (x.2 = y.2 ∧ x.1 ≤ y.1)

theorem rankRel_antisymm : ∀ x y, rankRel x y → rankRel y x → x = y := by
  rintro ⟨i, a⟩ ⟨j, b⟩ h1 h2
  simp only [rankRel] at h1 h2
  rcases h1 with h1 | ⟨h1e, h1i⟩ <;> rcases h2 with h2 | ⟨h2e, h2i⟩
  · exact absurd (lt_trans h1 h2) (lt_irrefl b)
  · exact absurd h1 (by rw [h2e]; exact lt_irrefl a)
  · exact absurd h2 (by rw [h1e]; exact lt_irrefl b)
  · subst h1e
    rw [le_antisymm h1i h2i]

instance : IsAntisymm (ℕ × ℚ) rankRel := ⟨rankRel_antisymm⟩

theorem specScore_official_eq (rs : List DrillResult) :
    (specScore (bestNormalizedScores rs) OFFICIAL_DEFAULT_WEIGHTS).toOption.getD 0 =
      calculateCustomCompositeScore rs OFFICIAL_DEFAULT_WEIGHTS := by
  rw [calc_eq_closed]
  have hsum : (DRILL_TYPES.map OFFICIAL_DEFAULT_WEIGHTS).sum = 100 := by
    norm_num [DRILL_TYPES, OFFICIAL_DEFAULT_WEIGHTS]
  rw [specScore, hsum]
  rw [if_neg (by norm_num), if_neg (by norm_num)]
  rfl

/-- Counterexample to C8: on an unmutated snapshot with two tied players
listed in descending id order, the frontend what-if path under the official
weights ranks them in insertion order (player 2 first), while the official
ranker breaks the tie by ascending player id (player 1 first) — player 1
receives rank 2 in one and rank 1 in the other. -/
theorem claim_C8_counterexample :
    (rankEntries (filteredAndSortedPlayers [⟨2, "10U", 0⟩, ⟨1, "10U", 0⟩] (fun _ => [])
        OFFICIAL_DEFAULT_WEIGHTS none)).map (fun rp => (rp.1, rp.2.player.id)) =
      [(1, 2), (2, 1)] ∧
      (officialRanking [⟨2, "10U", 0⟩, ⟨1, "10U", 0⟩] (fun _ => [])).map
        (fun rp => (rp.1, rp.2.player_id)) = [(1, 1), (2, 2)] := by
  constructor <;>
    simp +decide [rankEntries, filteredAndSortedPlayers, scoredPlayers, officialRanking,
      specRank, specLe, specScore, calculateCustomCompositeScore, bestNormalizedScores,
      bestStep, DRILL_TYPES, round2, OFFICIAL_DEFAULT_WEIGHTS, List.mergeSort, List.merge,
      List.enum, List.enumFrom]

theorem enumFrom_map_pair {α β γ : Type} :
    ∀ (l1 : List α) (l2 : List β) (f : α → γ) (g : β → γ) (n : ℕ),
      l1.map f = l2.map g →
      (List.enumFrom n l1).map (fun ip => (ip.1 + 1, f ip.2)) =
        (List.enumFrom n l2).map (fun ip => (ip.1 + 1, g ip.2)) := by
  intro l1
  induction l1 with
  | nil =>
    intro l2 f g n h
    cases l2 with
    | nil => rfl
    | cons b t2 => cases h
  | cons a t ih =>
    intro l2 f g n h
    cases l2 with
    | nil => cases h
    | cons b t2 =>
      rw [List.map_cons, List.map_cons] at h
      obtain ⟨h1, h2⟩ := List.cons.injEq .. |>.mp h
      simp only [List.enumFrom, List.map_cons]
      rw [h1, ih t2 f g (n + 1) h2]

theorem scoredPlayers_none (players : List Player) (drillResults : ℕ → List DrillResult)
    (w : WeightProfile) :
    scoredPlayers players drillResults w none =
      players.map fun p =>
        ⟨p, calculateCustomCompositeScore (drillResults p.id) w, p.composite_score⟩ := by
  unfold scoredPlayers
  rw [List.filter_true]

/-- C8 as amended: on an unmutated snapshot, the what-if path under the
official weight profile yields the same composite score for every player as
the official path, and — provided the composite scores are pairwise distinct,
so that the differing tie-break orders never fire — the same `(rank,
player_id, composite)` sequence as the official ranking. -/
theorem claim_C8_amended (players : List Player) (drillResults : ℕ → List DrillResult)
    (hdist : (players.map fun p =>
        calculateCustomCompositeScore (drillResults p.id)
          OFFICIAL_DEFAULT_WEIGHTS).Pairwise (fun a b => a ≠ b)) :
    (rankEntries (filteredAndSortedPlayers players drillResults
        OFFICIAL_DEFAULT_WEIGHTS none)).map
        (fun rp => (rp.1, rp.2.player.id, rp.2.customCompositeScore)) =
      (officialRanking players drillResults).map
        (fun rp => (rp.1, rp.2.player_id, rp.2.composite_score)) := by
  set φ : ScoredPlayer → ℕ × ℚ := fun s => (s.player.id, s.customCompositeScore) with hφ
  set ψ : RankInput → ℕ × ℚ := fun e => (e.player_id, e.composite_score) with hψ
  set entries : List RankInput := players.map fun p =>
    ⟨p.id, (specScore (bestNormalizedScores (drillResults p.id))
      OFFICIAL_DEFAULT_WEIGHTS).toOption.getD 0⟩ with hentries
  set L : List ScoredPlayer := filteredAndSortedPlayers players drillResults
    OFFICIAL_DEFAULT_WEIGHTS none with hL
  set M : List RankInput := entries.mergeSort specLe with hM
  have hL_perm : List.Perm L (scoredPlayers players drillResults
      OFFICIAL_DEFAULT_WEIGHTS none) := List.mergeSort_perm _ _
  have hM_perm : List.Perm M entries := List.mergeSort_perm _ _
  have hcommon : (scoredPlayers players drillResults OFFICIAL_DEFAULT_WEIGHTS none).map φ =
      players.map fun p => (p.id,
        calculateCustomCompositeScore (drillResults p.id) OFFICIAL_DEFAULT_WEIGHTS) := by
    rw [scoredPlayers_none, List.map_map]
    rfl
  have hentries_map : entries.map ψ = players.map fun p => (p.id,
      calculateCustomCompositeScore (drillResults p.id) OFFICIAL_DEFAULT_WEIGHTS) := by
    rw [hentries, List.map_map]
    refine List.map_congr_left ?_
    intro p _
    simp only [Function.comp, hψ]
    rw [specScore_official_eq]
  have hperm : List.Perm (L.map φ) (M.map ψ) := by
    refine (hL_perm.map φ).trans ?_
    rw [hcommon, ← hentries_map]
    exact (hM_perm.map ψ).symm
  have hsortL : L.Pairwise fun a b => b.customCompositeScore ≤ a.customCompositeScore :=
    (List.sorted_mergeSort scoreLe_trans scoreLe_total _).imp of_decide_eq_true
  have hdistL : L.Pairwise fun a b => a.customCompositeScore ≠ b.customCompositeScore := by
    have hsym : ∀ {x y : ScoredPlayer},
        (fun a b : ScoredPlayer => a.customCompositeScore ≠ b.customCompositeScore) x y →
        (fun a b : ScoredPlayer => a.customCompositeScore ≠ b.customCompositeScore) y x :=
      fun h => h.symm
    rw [List.Perm.pairwise_iff hsym hL_perm, scoredPlayers_none, List.pairwise_map]
    exact List.pairwise_map.mp hdist
  have hstrict : L.Pairwise fun a b => b.customCompositeScore < a.customCompositeScore :=
    (hsortL.and hdistL).imp fun h => lt_of_le_of_ne h.1 h.2.symm
  have hsortLφ : (L.map φ).Pairwise rankRel := by
    rw [List.pairwise_map]
    exact hstrict.imp fun h => Or.inl h
  have hsortM : (M.map ψ).Pairwise rankRel := by
    rw [List.pairwise_map]
    exact (List.sorted_mergeSort specLe_trans specLe_total entries).imp
      fun h => of_decide_eq_true h
  have heq : L.map φ = M.map ψ := List.eq_of_perm_of_sorted hperm hsortLφ hsortM
  have hfinal := enumFrom_map_pair L M φ ψ 0 heq
  show (List.map _ (rankEntries L)) = (List.map _ (officialRanking players drillResults))
  rw [rankEntries, officialRanking, specRank, ← hentries, ← hM, List.map_map, List.map_map]
  exact hfinal

/-- Players for the C8 witness: distinct composite scores 24 and 0. -/
def c8Players : List Player := [⟨1, "10U", 24⟩, ⟨2, "10U", 0⟩]

/-- Snapshot for the C8 witness: player 1 ran the dash at normalized 80,
player 2 attempted nothing. -/
def c8Results : ℕ → List DrillResult :=
  fun pid => if pid = 1 then [⟨fortyMDash, 5, some 80⟩] else []

/-- Witness for the amended C8 at a concrete two-player snapshot with
distinct composites. -/
theorem claim_C8_witness :
    ((c8Players.map fun p => calculateCustomCompositeScore (c8Results p.id)
        OFFICIAL_DEFAULT_WEIGHTS).Pairwise (fun a b => a ≠ b)) ∧
      (rankEntries (filteredAndSortedPlayers c8Players c8Results
          OFFICIAL_DEFAULT_WEIGHTS none)).map
          (fun rp => (rp.1, rp.2.player.id, rp.2.customCompositeScore)) =
        (officialRanking c8Players c8Results).map
          (fun rp => (rp.1, rp.2.player_id, rp.2.composite_score)) := by
  have hdist : (c8Players.map fun p => calculateCustomCompositeScore (c8Results p.id)
      OFFICIAL_DEFAULT_WEIGHTS).Pairwise (fun a b => a ≠ b) := by
    simp +decide [c8Players, c8Results, calculateCustomCompositeScore, bestNormalizedScores,
      bestStep, DRILL_TYPES, round2, OFFICIAL_DEFAULT_WEIGHTS]
    rw [if_neg (by norm_num), if_neg (by norm_num),
      show ⌊(80 * (30 / 100) / (30 / 100 + 20 / 100 + 15 / 100 + 15 / 100 + 20 / 100) * 100 +
          2⁻¹ : ℚ)⌋ = 2400 from by
        rw [Int.floor_eq_iff]
        norm_num,
      show ⌊(2⁻¹ : ℚ)⌋ = 0 from by
        rw [Int.floor_eq_iff]
        norm_num]
    norm_num
  exact ⟨hdist, claim_C8_amended c8Players c8Results hdist⟩
